import Mathlib

set_option maxRecDepth 8000
set_option linter.unusedVariables false

/-!
Verification of the tabletop-oracle application (src/app.py).

Texts are modelled as `List Char` (Python `str`).  The external model
service is modelled by an `Option (List Char)` parameter: `none` stands for
a call that raised an exception (the source catches every exception at the
component boundary), `some raw` for a call that returned the text `raw`.
`json.loads` is modelled by an executable JSON parser (`jsonLoads`) that
returns `none` exactly where the Python decoder raises on the inputs in
scope (strict strings, JSON number tokens, NaN and Infinity literals).
-/

namespace TabletopOracle

/-- Whitespace set stripped by Python str.strip (ASCII part). -/
def isPyWs (c : Char) : Bool :=
  c == ' ' || c == '\t' || c == '\n' || c == '\r' || c == '\x0b' || c == '\x0c'

/-- Python str.lstrip(). -/
def lstrip (l : List Char) : List Char := l.dropWhile isPyWs

/-- Python str.rstrip(). -/
def rstrip (l : List Char) : List Char := (l.reverse.dropWhile isPyWs).reverse

/-- Python str.strip(). -/
def pystrip (l : List Char) : List Char := rstrip (lstrip l)

/-- Python str.lower (ASCII; the keyword scan only involves ASCII). -/
def pyLower (l : List Char) : List Char := l.map Char.toLower

/-- Leftmost occurrence of a pattern sep in a list: the part before the
match and the part after it.  This is the scan underlying the Python
substring operations used in the source (the in operator, split, replace).
All call sites pass the nonempty fence patterns of the source. -/
def findSub (sep : List Char) : List Char → Option (List Char × List Char)
  | [] => none
  | c :: rest =>
    if sep.isPrefixOf (c :: rest) then some ([], (c :: rest).drop sep.length)
    else
      match findSub sep rest with
      | some (pre, post) => some (c :: pre, post)
      | none => none

/-- Python substring membership, sub in s, for nonempty sub. -/
def pyContains (sep l : List Char) : Bool := (findSub sep l).isSome

/-- Fuelled worker for Python str.split. -/
def splitOnSub (sep : List Char) : Nat → List Char → List (List Char)
  | 0, l => [l]
  | fuel + 1, l =>
    match findSub sep l with
    | none => [l]
    | some (pre, post) => pre :: splitOnSub sep fuel post

/-- Python str.split(sep) for nonempty sep; fuel length+1 always suffices
because every separator occurrence consumes at least one character. -/
def pysplit (sep l : List Char) : List (List Char) := splitOnSub sep (l.length + 1) l

/-- Fuelled worker for Python str.replace. -/
def replaceSub (sep rep : List Char) : Nat → List Char → List Char
  | 0, l => l
  | fuel + 1, l =>
    match findSub sep l with
    | none => l
    | some (pre, post) => pre ++ rep ++ replaceSub sep rep fuel post

/-- Python str.replace(sep, rep) for nonempty sep. -/
def pyreplace (sep rep l : List Char) : List Char := replaceSub sep rep (l.length + 1) l

/-- JSON values as produced by json.loads.  Number literals keep their
source token; the claims only compare records structurally. -/
inductive Json where
  | null
  | bool (b : Bool)
  | num (tok : List Char)
  | str (chars : List Char)
  | arr (items : List Json)
  | obj (members : List (List Char × Json))

/-- dict.get on a parsed object (last binding wins, as in a Python dict
built from parsed JSON); none on a missing key or a non-object. -/
def Json.get (j : Json) (k : List Char) : Option Json :=
  match j with
  | .obj ms => (ms.reverse.find? (fun kv => kv.1 == k)).map (fun kv => kv.2)
  | _ => none

/-- Whitespace skipped between JSON tokens by the Python decoder. -/
def isJsonWs (c : Char) : Bool := c == ' ' || c == '\t' || c == '\n' || c == '\r'

def skipWs (l : List Char) : List Char := l.dropWhile isJsonWs

def hexVal (c : Char) : Option Nat :=
  if '0' ≤ c && c ≤ '9' then some (c.toNat - 48)
  else if 'a' ≤ c && c ≤ 'f' then some (c.toNat - 87)
  else if 'A' ≤ c && c ≤ 'F' then some (c.toNat - 55)
  else none

def escChar (e : Char) : Option Char :=
  if e == '"' then some '"'
  else if e == '\\' then some '\\'
  else if e == '/' then some '/'
  else if e == 'b' then some (Char.ofNat 8)
  else if e == 'f' then some (Char.ofNat 12)
  else if e == 'n' then some '\n'
  else if e == 'r' then some '\r'
  else if e == 't' then some '\t'
  else none

/-- Body of a JSON string after the opening quote: decoded characters and
the remainder after the closing quote.  Strict mode: bare control
characters and unknown escapes are rejected, as in json.loads. -/
def parseStringBody : List Char → Option (List Char × List Char)
  | [] => none
  | '"' :: rest => some ([], rest)
  | '\\' :: 'u' :: h1 :: h2 :: h3 :: h4 :: rest =>
    match hexVal h1, hexVal h2, hexVal h3, hexVal h4 with
    | some a, some b, some c, some d =>
      (parseStringBody rest).map
        (fun p => (Char.ofNat (((a * 16 + b) * 16 + c) * 16 + d) :: p.1, p.2))
    | _, _, _, _ => none
  | '\\' :: e :: rest =>
    match escChar e with
    | some c => (parseStringBody rest).map (fun p => (c :: p.1, p.2))
    | none => none
  | c :: rest =>
    if c.toNat < 32 then none
    else (parseStringBody rest).map (fun p => (c :: p.1, p.2))

/-- Optional fraction part of a JSON number token. -/
def parseFrac : List Char → Option (List Char × List Char)
  | '.' :: r =>
    let ds := r.takeWhile Char.isDigit
    if ds = [] then none else some ('.' :: ds, r.dropWhile Char.isDigit)
  | l => some ([], l)

/-- Optional exponent part of a JSON number token. -/
def parseExp : List Char → Option (List Char × List Char)
  | [] => some ([], [])
  | c :: r =>
    if c == 'e' || c == 'E' then
      let (sgn, r1) :=
        match r with
        | '+' :: t => (['+'], t)
        | '-' :: t => (['-'], t)
        | _ => (([] : List Char), r)
      let ds := r1.takeWhile Char.isDigit
      if ds = [] then none else some (c :: (sgn ++ ds), r1.dropWhile Char.isDigit)
    else some ([], c :: r)

/-- A JSON number token: optional minus, integer part without leading
zeros, optional fraction, optional exponent. -/
def parseNumber (l : List Char) : Option (List Char × List Char) :=
  let (negTok, l1) :=
    match l with
    | '-' :: r => ((['-'] : List Char), r)
    | _ => (([] : List Char), l)
  match l1 with
  | [] => none
  | c :: r =>
    if c == '0' then
      match parseFrac r with
      | none => none
      | some (ft, l2) =>
        match parseExp l2 with
        | none => none
        | some (et, l3) => some (negTok ++ '0' :: (ft ++ et), l3)
    else if c.isDigit then
      let ds := r.takeWhile Char.isDigit
      let r2 := r.dropWhile Char.isDigit
      match parseFrac r2 with
      | none => none
      | some (ft, l2) =>
        match parseExp l2 with
        | none => none
        | some (et, l3) => some (negTok ++ c :: (ds ++ (ft ++ et)), l3)
    else none

mutual

/-- One JSON value and the unconsumed remainder.  The fuel only bounds the
recursion; fuel = input length + 1 always suffices because every recursive
step first consumes at least one character. -/
def parseVal : Nat → List Char → Option (Json × List Char)
  | 0, _ => none
  | fuel + 1, l =>
    match skipWs l with
    | 'n' :: 'u' :: 'l' :: 'l' :: r => some (.null, r)
    | 't' :: 'r' :: 'u' :: 'e' :: r => some (.bool true, r)
    | 'f' :: 'a' :: 'l' :: 's' :: 'e' :: r => some (.bool false, r)
    | 'N' :: 'a' :: 'N' :: r => some (.num ("NaN").toList, r)
    | 'I' :: 'n' :: 'f' :: 'i' :: 'n' :: 'i' :: 't' :: 'y' :: r =>
      some (.num ("Infinity").toList, r)
    | '-' :: 'I' :: 'n' :: 'f' :: 'i' :: 'n' :: 'i' :: 't' :: 'y' :: r =>
      some (.num ("-Infinity").toList, r)
    | '"' :: r => (parseStringBody r).map (fun p => (.str p.1, p.2))
    | '{' :: r =>
      match skipWs r with
      | '}' :: r2 => some (.obj [], r2)
      | r2 => (parseMembers fuel r2).map (fun p => (.obj p.1, p.2))
    | '[' :: r =>
      match skipWs r with
      | ']' :: r2 => some (.arr [], r2)
      | r2 => (parseItems fuel r2).map (fun p => (.arr p.1, p.2))
    | rest => (parseNumber rest).map (fun p => (.num p.1, p.2))

/-- Members of a JSON object after the opening brace (nonempty case). -/
def parseMembers : Nat → List Char → Option (List (List Char × Json) × List Char)
  | 0, _ => none
  | fuel + 1, l =>
    match skipWs l with
    | '"' :: r =>
      match parseStringBody r with
      | none => none
      | some (key, r2) =>
        match skipWs r2 with
        | ':' :: r3 =>
          match parseVal fuel r3 with
          | none => none
          | some (v, r4) =>
            match skipWs r4 with
            | ',' :: r5 => (parseMembers fuel r5).map (fun p => ((key, v) :: p.1, p.2))
            | '}' :: r5 => some ([(key, v)], r5)
            | _ => none
        | _ => none
    | _ => none

/-- Items of a JSON array after the opening bracket (nonempty case). -/
def parseItems : Nat → List Char → Option (List Json × List Char)
  | 0, _ => none
  | fuel + 1, l =>
    match parseVal fuel l with
    | none => none
    | some (v, r) =>
      match skipWs r with
      | ',' :: r2 => (parseItems fuel r2).map (fun p => (v :: p.1, p.2))
      | ']' :: r2 => some ([v], r2)
      | _ => none

end

/-- Python json.loads: one JSON value, optionally surrounded by
whitespace; none where the decoder raises. -/
def jsonLoads (l : List Char) : Option Json :=
  match parseVal (l.length + 1) l with
  | some (v, rest) => if skipWs rest = [] then some v else none
  | none => none

/-- The backtick character. -/
def bt : Char := Char.ofNat 96

/-- The characters of the triple-backtick fence used in the source. -/
def fence : List Char := [bt, bt, bt]

/-- The characters of the fence with json language tag. -/
def fenceJson : List Char := [bt, bt, bt, 'j', 's', 'o', 'n']

/-- The fenced-code-block stripping that HouseRuleOracle.analyze,
RuleSimplifier.simplify and LogicValidator.is_logical_input all apply to
the raw model text before json.loads (app.py lines 200-201, 239-240,
311-312). -/
def stripCodeFence (content : List Char) : List Char :=
  if pyContains fenceJson content then
    pystrip ((pysplit fence ((pysplit fenceJson content).getD 1 [])).getD 0 [])
  else if pyContains fence content then
    pystrip ((pysplit fence ((pysplit fence content).getD 1 [])).getD 0 [])
  else content

/-- The analyzer JSON-parse step: strip a fenced code block, then
json.loads; none models a raised (and caught) parse error. -/
def parseModelReply (content : List Char) : Option Json :=
  jsonLoads (stripCodeFence content)

/-- Python truthiness of an optional string: None and the empty string are
falsy. -/
def strTruthy : Option (List Char) → Bool
  | none => false
  | some l => !l.isEmpty

def RulebookValidator.KEYWORDS : List (List Char) :=
  [("setup").toList, ("gameplay").toList, ("components").toList, ("turn order").toList,
   ("victory conditions").toList, ("rules").toList, ("player").toList, ("phase").toList]

/-- Number of distinct keywords found in the lower-cased text (app.py
lines 257-258). -/
def RulebookValidator.keywordCount (t : List Char) : Nat :=
  (RulebookValidator.KEYWORDS.filter (fun k => pyContains k (pyLower t))).length

def noReadableDict : Json :=
  .obj [(("is_rulebook").toList, .bool false),
        (("reason").toList, .str ("No readable text found in the tome.").toList)]

def couldNotVerifyDict : Json :=
  .obj [(("is_rulebook").toList, .bool false),
        (("reason").toList, .str ("The Oracle could not verify this text\x27s nature.").toList)]

def validDict : Json :=
  .obj [(("is_rulebook").toList, .bool true),
        (("reason").toList, .str ("Valid board game terminology detected.").toList)]

def tooShortDict : Json :=
  .obj [(("is_logical").toList, .bool false),
        (("reason").toList, .str ("The scroll is too short or empty to be meaningful.").toList)]

def intuitionDict : Json :=
  .obj [(("is_logical").toList, .bool true),
        (("reason").toList, .str ("The Oracle\x27s intuition allows this to pass.").toList)]

/-- The validator parse of the model reply (app.py line 280): remove every
fence marker by replacement, strip, then json.loads. -/
def RulebookValidator.parseReply (raw : List Char) : Option Json :=
  jsonLoads (pystrip (pyreplace fence [] (pyreplace fenceJson [] raw)))

/-- RulebookValidator.validate (app.py lines 250-286).  The prompt string
only feeds the external model, whose outcome is the modelReply parameter:
none for a raised call, some raw for a reply; a reply whose parse fails is
handled by the same except branch as a raised call. -/
def RulebookValidator.validate (text : Option (List Char)) (fileName : List Char)
    (modelName : List Char) (modelReply : Option (List Char)) : Json :=
  if !strTruthy text then noReadableDict
  else
    let t := text.getD []
    if RulebookValidator.keywordCount t < 2 then
      match modelReply with
      | none => couldNotVerifyDict
      | some raw =>
        match RulebookValidator.parseReply raw with
        | some j => j
        | none => couldNotVerifyDict
    else validDict

/-- LogicValidator.is_logical_input (app.py lines 289-316). -/
def LogicValidator.is_logical_input (text contextType : List Char)
    (modelName : List Char) (modelReply : Option (List Char)) : Json :=
  if text = [] ∨ (pystrip text).length < 5 then tooShortDict
  else
    match modelReply with
    | none => intuitionDict
    | some content =>
      match parseModelReply content with
      | some j => j
      | none => intuitionDict

/-- HouseRuleOracle.analyze (app.py lines 153-206).  gameTitle and
officialRules only feed the prompt. -/
def HouseRuleOracle.analyze (gameTitle officialRules houseRule : List Char)
    (modelName : List Char) (modelReply : Option (List Char)) : Option Json :=
  if houseRule = [] then none
  else
    match modelReply with
    | none => none
    | some content => parseModelReply content

/-- RuleSimplifier.simplify (app.py lines 209-245). -/
def RuleSimplifier.simplify (rulebookText gameTitle : List Char)
    (modelName : List Char) (modelReply : Option (List Char)) : Option Json :=
  if rulebookText = [] then none
  else
    match modelReply with
    | none => none
    | some content => parseModelReply content

/-- RuleMasterAssistant.answer_question (app.py lines 319-349): the raw
model text is returned verbatim; none on an empty question or a raised
call. -/
def RuleMasterAssistant.answer_question (question rulebookText gameTitle : List Char)
    (modelName : List Char) (modelReply : Option (List Char)) : Option (List Char) :=
  if question = [] then none
  else modelReply

/-- The corpus truncation applied in each page flow. -/
def truncAt (limit : Nat) (s : List Char) : List Char :=
  if s.length > limit then s.take limit else s

/-- app.py line 432. -/
def oracleTruncateCorpus : List Char → List Char := truncAt 1000000

/-- app.py line 509. -/
def simplifierTruncateCorpus : List Char → List Char := truncAt 500000

/-- app.py line 592. -/
def assistantTruncateCorpus : List Char → List Char := truncAt 800000

/-- One step of the corpus-assembly loop (app.py lines 427-430, 504-507,
586-590): a file contributes nothing when extraction returned the absence
marker or the empty string. -/
def corpusStep (acc : List Char) (entry : List Char × Option (List Char)) : List Char :=
  match entry.2 with
  | none => acc
  | some text =>
    if text = [] then acc
    else acc ++ ("\nFILE: ").toList ++ entry.1 ++ '\n' :: text

/-- The corpus-assembly loop over (file name, extraction result) pairs. -/
def buildCorpus (files : List (List Char × Option (List Char))) : List Char :=
  files.foldl corpusStep []

/-- The session Q&A log update of the RuleMaster Assistant page flow
(app.py lines 594-602): the pair is appended only when the answer is
truthy (non-None and nonempty). -/
def updateQaLog (log : List (List Char × List Char)) (question : List Char)
    (answer : Option (List Char)) : List (List Char × List Char) :=
  match answer with
  | none => log
  | some a => if a = [] then log else log ++ [(question, a)]

/-- A model reply wrapping a payload in a fenced code block, with or
without the json language tag. -/
def wrapFence (tag : Bool) (s : List Char) : List Char :=
  (if tag then fenceJson else fence) ++ (('\n' :: s) ++ ('\n' :: fence))

/-! ### Helper lemmas about the embedded string operations -/

theorem isPrefixOf_append_self {α : Type} [BEq α] [LawfulBEq α] (l y : List α) :
    l.isPrefixOf (l ++ y) = true := by
  induction l with
  | nil => simp [List.isPrefixOf]
  | cons a t ih => simp [List.cons_append, List.isPrefixOf, ih]

theorem isPrefixOf_refl {α : Type} [BEq α] [LawfulBEq α] (l : List α) :
    l.isPrefixOf l = true := by
  have h := isPrefixOf_append_self l ([] : List α)
  rwa [List.append_nil] at h

theorem take_isPrefixOf (n : Nat) (l : List Char) : (l.take n).isPrefixOf l = true := by
  induction l generalizing n with
  | nil => cases n <;> rfl
  | cons a t ih =>
    cases n with
    | zero => rfl
    | succ m => simp [List.take, List.isPrefixOf, ih]

theorem truncAt_eq_ite (N : Nat) (s : List Char) :
    truncAt N s = if s.length ≤ N then s else s.take N := by
  unfold truncAt
  by_cases h : N < s.length
  · have h2 : ¬ s.length ≤ N := by omega
    simp [h, h2]
  · have h2 : s.length ≤ N := by omega
    simp [h, h2]

theorem truncAt_idem (N : Nat) (s : List Char) : truncAt N (truncAt N s) = truncAt N s := by
  unfold truncAt
  by_cases h : s.length > N
  · have hlen : (s.take N).length = N := by
      simp [List.length_take]
      omega
    simp [h, hlen]
  · simp [h]

theorem truncAt_isPrefixOf (N : Nat) (s : List Char) : (truncAt N s).isPrefixOf s = true := by
  unfold truncAt
  by_cases h : s.length > N
  · simp [h, take_isPrefixOf]
  · simp [h, isPrefixOf_refl]

theorem findSub_nil (sep : List Char) : findSub sep [] = none := rfl

theorem findSub_cons_pos (sep : List Char) (c : Char) (l : List Char)
    (h : sep.isPrefixOf (c :: l) = true) :
    findSub sep (c :: l) = some ([], (c :: l).drop sep.length) := by
  unfold findSub
  rw [if_pos h]

theorem findSub_cons_neg (sep : List Char) (c : Char) (l : List Char)
    (h : sep.isPrefixOf (c :: l) = false) :
    findSub sep (c :: l) = (findSub sep l).map (fun p => (c :: p.1, p.2)) := by
  simp only [findSub]
  rw [if_neg (by simp [h])]
  cases hf : findSub sep l with
  | none => rfl
  | some p => cases p with | mk pre post => rfl

theorem findSub_self (c : Char) (cs y : List Char) :
    findSub (c :: cs) ((c :: cs) ++ y) = some ([], y) := by
  rw [List.cons_append]
  rw [findSub_cons_pos _ _ _ (by rw [← List.cons_append]; exact isPrefixOf_append_self _ _)]
  rw [← List.cons_append, List.drop_left]

theorem isPrefixOf_cons_of_ne (c a : Char) (cs l : List Char) (h : (c == a) = false) :
    (c :: cs).isPrefixOf (a :: l) = false := by
  simp [List.isPrefixOf, h]

theorem findSub_append_notMem (c : Char) (cs x y : List Char) (hx : c ∉ x) :
    findSub (c :: cs) (x ++ y) = (findSub (c :: cs) y).map (fun p => (x ++ p.1, p.2)) := by
  induction x with
  | nil =>
    simp only [List.nil_append]
    cases hf : findSub (c :: cs) y with
    | none => simp
    | some p => cases p with | mk pre post => simp
  | cons a t ih =>
    have hca : c ≠ a := fun hc => hx (by simp [hc])
    have hne : (c == a) = false := by simp [hca]
    have ht : c ∉ t := fun hmem => hx (by simp [hmem])
    rw [List.cons_append, findSub_cons_neg _ _ _ (isPrefixOf_cons_of_ne _ _ _ _ hne), ih ht]
    cases hf : findSub (c :: cs) y with
    | none => simp
    | some p => cases p with | mk pre post => simp

theorem findSub_none_notMem (c : Char) (cs l : List Char) (h : c ∉ l) :
    findSub (c :: cs) l = none := by
  have h2 := findSub_append_notMem c cs l [] h
  simpa using h2

theorem findSub_sandwich (c : Char) (cs x y : List Char) (hx : c ∉ x) :
    findSub (c :: cs) (x ++ ((c :: cs) ++ y)) = some (x, y) := by
  rw [findSub_append_notMem c cs x _ hx, findSub_self]
  simp

theorem splitOnSub_none (sep l : List Char) (f : Nat) (h : findSub sep l = none) :
    splitOnSub sep (f + 1) l = [l] := by
  simp [splitOnSub, h]

theorem splitOnSub_pos_none (sep l : List Char) (f : Nat) (h : findSub sep l = none)
    (hf : 0 < f) : splitOnSub sep f l = [l] := by
  obtain ⟨m, rfl⟩ : ∃ m, f = m + 1 := ⟨f - 1, by omega⟩
  exact splitOnSub_none sep l m h

theorem splitOnSub_some (sep l pre post : List Char) (f : Nat)
    (h : findSub sep l = some (pre, post)) :
    splitOnSub sep (f + 1) l = pre :: splitOnSub sep f post := by
  simp [splitOnSub, h]

theorem splitOnSub_pos_some (sep l pre post : List Char) (f : Nat)
    (h : findSub sep l = some (pre, post)) (hf : 0 < f) :
    splitOnSub sep f l = pre :: splitOnSub sep (f - 1) post := by
  obtain ⟨m, rfl⟩ : ∃ m, f = m + 1 := ⟨f - 1, by omega⟩
  simpa using splitOnSub_some sep l pre post m h

theorem length_dropWhile_le (p : Char → Bool) (l : List Char) :
    (l.dropWhile p).length ≤ l.length := by
  induction l with
  | nil => simp
  | cons a t ih =>
    by_cases hp : p a
    · rw [List.dropWhile_cons_of_pos hp]
      simp only [List.length_cons]
      omega
    · rw [List.dropWhile_cons_of_neg (by simpa using hp)]

theorem length_rstrip_le (l : List Char) : (rstrip l).length ≤ l.length := by
  simp only [rstrip, List.length_reverse]
  simpa using length_dropWhile_le isPyWs l.reverse

theorem dropWhile_eq_self_of_len (p : Char → Bool) (l : List Char)
    (h : (l.dropWhile p).length = l.length) : l.dropWhile p = l := by
  cases l with
  | nil => rfl
  | cons a t =>
    by_cases hp : p a
    · exfalso
      rw [List.dropWhile_cons_of_pos hp] at h
      have := length_dropWhile_le p t
      simp at h
      omega
    · rw [List.dropWhile_cons_of_neg (by simpa using hp)]

theorem pystrip_parts (l : List Char) (h : pystrip l = l) :
    lstrip l = l ∧ rstrip l = l := by
  have h1 : (lstrip l).length ≤ l.length := by
    simpa [lstrip] using length_dropWhile_le isPyWs l
  have h2 : (pystrip l).length ≤ (lstrip l).length := length_rstrip_le (lstrip l)
  have h3 : (lstrip l).length = l.length := by
    rw [h] at h2
    omega
  have h4 : lstrip l = l := dropWhile_eq_self_of_len _ _ h3
  refine ⟨h4, ?_⟩
  rw [pystrip, h4] at h
  exact h

theorem dropWhile_reverse_of_rstrip (l : List Char) (h : rstrip l = l) :
    l.reverse.dropWhile isPyWs = l.reverse := by
  have h2 := congrArg List.reverse h
  simpa [rstrip] using h2

theorem pystrip_sandwich (s : List Char) (h : pystrip s = s) :
    pystrip (('\n' :: s) ++ ['\n']) = s := by
  obtain ⟨hl, hr⟩ := pystrip_parts s h
  cases s with
  | nil => decide
  | cons c t =>
    have hc : isPyWs c = false := by
      by_cases hp : isPyWs c
      · exfalso
        have h5 : lstrip (c :: t) = t.dropWhile isPyWs := by
          simp [lstrip, List.dropWhile_cons_of_pos hp]
        rw [h5] at hl
        have h6 := length_dropWhile_le isPyWs t
        have h7 := congrArg List.length hl
        simp at h7
        omega
      · simpa using hp
    have hA : lstrip (('\n' :: (c :: t)) ++ ['\n']) = (c :: t) ++ ['\n'] := by
      show List.dropWhile isPyWs ('\n' :: ((c :: t) ++ ['\n'])) = (c :: t) ++ ['\n']
      rw [List.dropWhile_cons_of_pos (by decide), List.cons_append,
        List.dropWhile_cons_of_neg (by simp [hc])]
    have hB : rstrip ((c :: t) ++ ['\n']) = c :: t := by
      have hrev : ((c :: t) ++ ['\n']).reverse = '\n' :: (c :: t).reverse := by simp
      rw [rstrip, hrev, List.dropWhile_cons_of_pos (by decide),
        dropWhile_reverse_of_rstrip _ hr, List.reverse_reverse]
    rw [pystrip, hA, hB]

/-! ### findSub and pysplit on the concrete fences -/

theorem fenceJson_not_prefix_bbbn (l : List Char) :
    fenceJson.isPrefixOf (bt :: bt :: bt :: '\n' :: l) = false := rfl

theorem fenceJson_not_prefix_bbn (l : List Char) :
    fenceJson.isPrefixOf (bt :: bt :: '\n' :: l) = false := rfl

theorem fenceJson_not_prefix_bn (l : List Char) :
    fenceJson.isPrefixOf (bt :: '\n' :: l) = false := rfl

theorem fenceJson_not_prefix_n (l : List Char) :
    fenceJson.isPrefixOf ('\n' :: l) = false := rfl

theorem findSub_fenceJson_self (y : List Char) :
    findSub fenceJson (fenceJson ++ y) = some ([], y) :=
  findSub_self bt [bt, bt, 'j', 's', 'o', 'n'] y

theorem findSub_fence_self (y : List Char) :
    findSub fence (fence ++ y) = some ([], y) :=
  findSub_self bt [bt, bt] y

theorem findSub_fenceJson_append (x y : List Char) (hx : bt ∉ x) :
    findSub fenceJson (x ++ y) = (findSub fenceJson y).map (fun p => (x ++ p.1, p.2)) :=
  findSub_append_notMem bt [bt, bt, 'j', 's', 'o', 'n'] x y hx

theorem findSub_fence_append (x y : List Char) (hx : bt ∉ x) :
    findSub fence (x ++ y) = (findSub fence y).map (fun p => (x ++ p.1, p.2)) :=
  findSub_append_notMem bt [bt, bt] x y hx

theorem findSub_fenceJson_notMem (l : List Char) (h : bt ∉ l) :
    findSub fenceJson l = none :=
  findSub_none_notMem bt [bt, bt, 'j', 's', 'o', 'n'] l h

theorem findSub_fence_notMem (l : List Char) (h : bt ∉ l) :
    findSub fence l = none :=
  findSub_none_notMem bt [bt, bt] l h

theorem findSub_fence_sandwich (x y : List Char) (hx : bt ∉ x) :
    findSub fence (x ++ (fence ++ y)) = some (x, y) :=
  findSub_sandwich bt [bt, bt] x y hx

theorem bt_notMem_sandwich (s : List Char) (hb : bt ∉ s) : bt ∉ ('\n' :: s) ++ ['\n'] := by
  simp only [List.mem_append, List.mem_cons, List.mem_singleton, List.not_mem_nil]
  rintro ((h | h) | h)
  · exact absurd h (by decide)
  · exact hb h
  · exact absurd h (by decide)

theorem stripCodeFence_wrap_tag (s : List Char) (hb : bt ∉ s) :
    stripCodeFence (wrapFence true s) = pystrip (('\n' :: s) ++ ['\n']) := by
  have hbX := bt_notMem_sandwich s hb
  have hw : wrapFence true s = fenceJson ++ ((('\n' :: s) ++ ['\n']) ++ fence) := by
    simp [wrapFence, List.append_assoc]
  have hfind1 : findSub fenceJson (wrapFence true s)
      = some ([], (('\n' :: s) ++ ['\n']) ++ fence) := by
    rw [hw]
    exact findSub_fenceJson_self _
  have hfindTail : findSub fenceJson ((('\n' :: s) ++ ['\n']) ++ fence) = none := by
    rw [findSub_fenceJson_append _ _ hbX]
    have hcc : findSub fenceJson fence = none := by decide
    rw [hcc]
    rfl
  have hlen1 : 0 < (wrapFence true s).length := by
    have h7 : fenceJson.length = 7 := rfl
    simp only [hw, List.length_append, h7]
    omega
  have hsplit1 : pysplit fenceJson (wrapFence true s)
      = [[], (('\n' :: s) ++ ['\n']) ++ fence] := by
    unfold pysplit
    rw [splitOnSub_some _ _ _ _ _ hfind1, splitOnSub_pos_none _ _ _ hfindTail hlen1]
  have hfind2 : findSub fence ((('\n' :: s) ++ ['\n']) ++ fence)
      = some (('\n' :: s) ++ ['\n'], []) := by
    have h2 := findSub_fence_sandwich (('\n' :: s) ++ ['\n']) [] hbX
    simpa using h2
  have hlen2 : 0 < ((('\n' :: s) ++ ['\n']) ++ fence).length := by
    have h3 : fence.length = 3 := rfl
    simp only [List.length_append, h3]
    omega
  have hsplit2 : pysplit fence ((('\n' :: s) ++ ['\n']) ++ fence)
      = [('\n' :: s) ++ ['\n'], []] := by
    unfold pysplit
    rw [splitOnSub_some _ _ _ _ _ hfind2, splitOnSub_pos_none _ _ _ (findSub_nil fence) hlen2]
  have hcont1 : pyContains fenceJson (wrapFence true s) = true := by
    simp [pyContains, hfind1]
  unfold stripCodeFence
  rw [if_pos hcont1, hsplit1]
  show pystrip ((pysplit fence ((('\n' :: s) ++ ['\n']) ++ fence)).getD 0 []) = _
  rw [hsplit2]
  rfl

theorem stripCodeFence_wrap_untag (s : List Char) (hb : bt ∉ s) :
    stripCodeFence (wrapFence false s) = pystrip (('\n' :: s) ++ ['\n']) := by
  have hbX := bt_notMem_sandwich s hb
  have h0 : findSub fenceJson ('\n' :: (s ++ ('\n' :: fence))) = none := by
    rw [findSub_cons_neg _ _ _ (fenceJson_not_prefix_n _)]
    rw [findSub_fenceJson_append _ _ hb]
    have hcc : findSub fenceJson ('\n' :: fence) = none := by decide
    rw [hcc]
    rfl
  have hw0 : wrapFence false s = bt :: bt :: bt :: '\n' :: (s ++ ('\n' :: fence)) := rfl
  have hnun : findSub fenceJson (wrapFence false s) = none := by
    rw [hw0]
    rw [findSub_cons_neg _ _ _ (fenceJson_not_prefix_bbbn (s ++ ('\n' :: fence)))]
    rw [findSub_cons_neg _ _ _ (fenceJson_not_prefix_bbn (s ++ ('\n' :: fence)))]
    rw [findSub_cons_neg _ _ _ (fenceJson_not_prefix_bn (s ++ ('\n' :: fence)))]
    rw [h0]
    rfl
  have hcontJ : pyContains fenceJson (wrapFence false s) = false := by
    simp [pyContains, hnun]
  have hw2 : wrapFence false s = fence ++ ((('\n' :: s) ++ ['\n']) ++ fence) := by
    simp [wrapFence, List.append_assoc]
  have hfindF : findSub fence (wrapFence false s)
      = some ([], (('\n' :: s) ++ ['\n']) ++ fence) := by
    rw [hw2]
    exact findSub_fence_self _
  have hfind2 : findSub fence ((('\n' :: s) ++ ['\n']) ++ fence)
      = some (('\n' :: s) ++ ['\n'], []) := by
    have h2 := findSub_fence_sandwich (('\n' :: s) ++ ['\n']) [] hbX
    simpa using h2
  have h3 : fence.length = 3 := rfl
  have hlen1 : 0 < (wrapFence false s).length := by
    simp only [hw2, List.length_append, h3]
    omega
  have hlen2 : 0 < (wrapFence false s).length - 1 := by
    simp only [hw2, List.length_append, h3]
    omega
  have hsplitF : pysplit fence (wrapFence false s)
      = [[], ('\n' :: s) ++ ['\n'], []] := by
    unfold pysplit
    rw [splitOnSub_some _ _ _ _ _ hfindF,
      splitOnSub_pos_some _ _ _ _ _ hfind2 hlen1,
      splitOnSub_pos_none _ _ _ (findSub_nil fence) hlen2]
  have hsplitX : pysplit fence (('\n' :: s) ++ ['\n']) = [('\n' :: s) ++ ['\n']] := by
    unfold pysplit
    exact splitOnSub_none _ _ _ (findSub_fence_notMem _ hbX)
  have hcontF : pyContains fence (wrapFence false s) = true := by
    simp [pyContains, hfindF]
  unfold stripCodeFence
  rw [if_neg (by simp [hcontJ]), if_pos hcontF, hsplitF]
  show pystrip ((pysplit fence (('\n' :: s) ++ ['\n'])).getD 0 []) = _
  rw [hsplitX]
  rfl

theorem stripCodeFence_nofence (s : List Char) (hb : bt ∉ s) :
    stripCodeFence s = s := by
  have h1 : findSub fenceJson s = none := findSub_fenceJson_notMem s hb
  have h2 : findSub fence s = none := findSub_fence_notMem s hb
  unfold stripCodeFence
  rw [if_neg (by simp [pyContains, h1]), if_neg (by simp [pyContains, h2])]

/-! ### The claims -/

/-- Claim C1: rulebook validation is fail-closed.  For every extracted
text with fewer than 2 distinct matching keywords, if the model call
raises (modelReply = none) or its reply cannot be parsed
(RulebookValidator.parseReply raw = none), validate returns a record with
is_rulebook = false; whenever the text is nonempty (so the model branch is
the one taken) the record is exactly the could-not-verify record. -/
theorem rulebook_validate_fail_closed (text fileName modelName : List Char)
    (hkw : RulebookValidator.keywordCount text < 2) :
    ((RulebookValidator.validate (some text) fileName modelName none).get
        (("is_rulebook").toList) = some (.bool false)
      ∧ (text ≠ [] →
          RulebookValidator.validate (some text) fileName modelName none = couldNotVerifyDict))
  ∧ ∀ raw, RulebookValidator.parseReply raw = none →
      ((RulebookValidator.validate (some text) fileName modelName (some raw)).get
          (("is_rulebook").toList) = some (.bool false)
        ∧ (text ≠ [] →
            RulebookValidator.validate (some text) fileName modelName (some raw)
              = couldNotVerifyDict)) := by
  cases text with
  | nil =>
    refine ⟨⟨rfl, fun hne => absurd rfl hne⟩, fun raw hp => ⟨?_, fun hne => absurd rfl hne⟩⟩
    rfl
  | cons c t =>
    have h1 : RulebookValidator.validate (some (c :: t)) fileName modelName none
        = couldNotVerifyDict := by
      unfold RulebookValidator.validate
      split

      · next hfalse => simp [strTruthy] at hfalse
      · simp only [Option.getD]
        rw [if_pos hkw]
    have h2 : ∀ raw, RulebookValidator.parseReply raw = none →
        RulebookValidator.validate (some (c :: t)) fileName modelName (some raw)
          = couldNotVerifyDict := by
      intro raw hp
      unfold RulebookValidator.validate
      split
      · next hfalse => simp [strTruthy] at hfalse
      · simp only [Option.getD]
        rw [if_pos hkw]
        simp [hp]
    refine ⟨⟨?_, fun _ => h1⟩, fun raw hp => ⟨?_, fun _ => h2 raw hp⟩⟩
    · rw [h1]
      rfl
    · rw [h2 raw hp]
      rfl

/-- Witness for C1: a text with no keywords, a raised call and an
unparsable reply. -/
theorem rulebook_validate_fail_closed_witness :
    RulebookValidator.validate (some ("zzz").toList) ("a.pdf").toList [] none
      = couldNotVerifyDict
  ∧ RulebookValidator.validate (some ("zzz").toList) ("a.pdf").toList []
      (some ("oops").toList) = couldNotVerifyDict := by
  have h := rulebook_validate_fail_closed ("zzz").toList ("a.pdf").toList [] (by decide)
  exact ⟨h.1.2 (by decide), (h.2 ("oops").toList rfl).2 (by decide)⟩

/-- Claim C2: logic validation is fail-open.  For every text whose
trimmed length is at least 5, a raised model call or an unparsable reply
makes is_logical_input return the fail-open record with
is_logical = true. -/
theorem logic_validator_fail_open (text contextType modelName : List Char)
    (h : 5 ≤ (pystrip text).length) :
    LogicValidator.is_logical_input text contextType modelName none = intuitionDict
  ∧ ∀ content, parseModelReply content = none →
      LogicValidator.is_logical_input text contextType modelName (some content)
        = intuitionDict := by
  have hcond : ¬ (text = [] ∨ (pystrip text).length < 5) := by
    rintro (rfl | hlt)
    · exact absurd h (by decide)
    · omega
  constructor
  · unfold LogicValidator.is_logical_input
    rw [if_neg hcond]
  · intro content hp
    unfold LogicValidator.is_logical_input
    rw [if_neg hcond]
    simp [hp]

/-- Witness for C2: a five-letter input, a raised call and an unparsable
reply. -/
theorem logic_validator_fail_open_witness :
    LogicValidator.is_logical_input ("hello").toList ("house rule").toList [] none
      = intuitionDict
  ∧ LogicValidator.is_logical_input ("hello").toList ("house rule").toList []
      (some ("zz").toList) = intuitionDict := by
  have h := logic_validator_fail_open ("hello").toList ("house rule").toList [] (by decide)
  exact ⟨h.1, h.2 ("zz").toList rfl⟩

/-- Claim C3: at least 2 distinct keywords in the lower-cased text make
validate return the is_rulebook = true record, for every model outcome
(so no model call is needed: the result does not depend on it). -/
theorem rulebook_validate_keyword_accept (text fileName modelName : List Char)
    (h : 2 ≤ RulebookValidator.keywordCount text) (modelReply : Option (List Char)) :
    RulebookValidator.validate (some text) fileName modelName modelReply = validDict := by
  cases text with
  | nil => exact absurd h (by decide)
  | cons c t =>
    unfold RulebookValidator.validate
    split
    · next hfalse => simp [strTruthy] at hfalse
    · simp only [Option.getD]
      rw [if_neg (by omega)]

/-- Witness for C3: a text containing the keywords rules and player;
the model outcome is a raised call, which the result ignores. -/
theorem rulebook_validate_keyword_accept_witness :
    RulebookValidator.validate (some ("All rules bind each player.").toList)
      ("g.pdf").toList [] none = validDict :=
  rulebook_validate_keyword_accept _ _ _ (by decide) none

/-- Claim C4: an empty input, or one whose trimmed length is under 5,
makes is_logical_input return the is_logical = false record for every
model outcome (no model call is needed). -/
theorem logic_validator_short_input (text contextType modelName : List Char)
    (h : text = [] ∨ (pystrip text).length < 5) (modelReply : Option (List Char)) :
    LogicValidator.is_logical_input text contextType modelName modelReply = tooShortDict := by
  unfold LogicValidator.is_logical_input
  rw [if_pos h]

/-- Witness for C4: a two-letter input. -/
theorem logic_validator_short_input_witness :
    LogicValidator.is_logical_input ("hi").toList ("house rule").toList [] none
      = tooShortDict :=
  logic_validator_short_input _ _ _ (Or.inr (by decide)) none

/-- Claim C5: each corpus truncation is left-truncation to its
tool-specific ceiling (1000000, 500000, 800000): corpora at or under the
ceiling are unchanged, longer ones are cut to exactly the first N
characters, and the operation is idempotent and prefix-preserving. -/
theorem corpus_truncation_spec (s : List Char) :
    (oracleTruncateCorpus s = if s.length ≤ 1000000 then s else s.take 1000000)
  ∧ (simplifierTruncateCorpus s = if s.length ≤ 500000 then s else s.take 500000)
  ∧ (assistantTruncateCorpus s = if s.length ≤ 800000 then s else s.take 800000)
  ∧ oracleTruncateCorpus (oracleTruncateCorpus s) = oracleTruncateCorpus s
  ∧ simplifierTruncateCorpus (simplifierTruncateCorpus s) = simplifierTruncateCorpus s
  ∧ assistantTruncateCorpus (assistantTruncateCorpus s) = assistantTruncateCorpus s
  ∧ (oracleTruncateCorpus s).isPrefixOf s = true
  ∧ (simplifierTruncateCorpus s).isPrefixOf s = true
  ∧ (assistantTruncateCorpus s).isPrefixOf s = true := by
  refine ⟨?_, ?_, ?_, ?_, ?_, ?_, ?_, ?_, ?_⟩
  · exact truncAt_eq_ite 1000000 s
  · exact truncAt_eq_ite 500000 s
  · exact truncAt_eq_ite 800000 s
  · exact truncAt_idem 1000000 s
  · exact truncAt_idem 500000 s
  · exact truncAt_idem 800000 s
  · exact truncAt_isPrefixOf 1000000 s
  · exact truncAt_isPrefixOf 500000 s
  · exact truncAt_isPrefixOf 800000 s

/-- Claim C6: the analyzer pipelines convert every modelled failure into
a null result: a raised model call (modelReply = none) and, for the two
JSON tools, a reply whose parse fails, both yield none; the Q&A tool does
not parse, so only the raised call applies to it. -/
theorem analyzers_catch_exceptions (gameTitle officialRules houseRule rulebookText
    question modelName : List Char) :
    HouseRuleOracle.analyze gameTitle officialRules houseRule modelName none = none
  ∧ (∀ content, parseModelReply content = none →
      HouseRuleOracle.analyze gameTitle officialRules houseRule modelName (some content)
        = none)
  ∧ RuleSimplifier.simplify rulebookText gameTitle modelName none = none
  ∧ (∀ content, parseModelReply content = none →
      RuleSimplifier.simplify rulebookText gameTitle modelName (some content) = none)
  ∧ RuleMasterAssistant.answer_question question rulebookText gameTitle modelName none
      = none := by
  refine ⟨?_, ?_, ?_, ?_, ?_⟩
  · unfold HouseRuleOracle.analyze
    split <;> rfl
  · intro content hp
    unfold HouseRuleOracle.analyze
    split
    · rfl
    · exact hp
  · unfold RuleSimplifier.simplify
    split <;> rfl
  · intro content hp
    unfold RuleSimplifier.simplify
    split
    · rfl
    · exact hp
  · unfold RuleMasterAssistant.answer_question
    split <;> rfl

/-- Witness for C6: an unparsable reply on nonempty inputs yields none
for the Oracle and the Simplifier. -/
theorem analyzers_catch_exceptions_witness :
    HouseRuleOracle.analyze ("Chess").toList [] ("x").toList []
      (some ("oops").toList) = none
  ∧ RuleSimplifier.simplify ("some rules").toList ("Chess").toList []
      (some ("oops").toList) = none := by
  have h := analyzers_catch_exceptions ("Chess").toList [] ("x").toList
    ("some rules").toList ("q").toList []
  exact ⟨h.2.1 ("oops").toList rfl, h.2.2.2.1 ("oops").toList rfl⟩

/-- Claim C7: an empty required free-text input makes each analyzer
return none for every model outcome (no model call is needed). -/
theorem analyzers_empty_input_noop (gameTitle officialRules rulebookText modelName : List Char)
    (modelReply : Option (List Char)) :
    HouseRuleOracle.analyze gameTitle officialRules [] modelName modelReply = none
  ∧ RuleSimplifier.simplify [] gameTitle modelName modelReply = none
  ∧ RuleMasterAssistant.answer_question [] rulebookText gameTitle modelName modelReply
      = none :=
  ⟨rfl, rfl, rfl⟩

/-- Claim C8, counterexample: the claim quantifies over every JSON record;
for the record that is the JSON string of three backticks, 5, three
backticks, whose raw serialization contains backtick runs, parsing the
fenced wrap yields none while parsing the raw serialization yields the
number 5, so the two parses differ (and neither recovers the record). -/
theorem fenced_roundtrip_counterexample :
    parseModelReply ("```json\n\"```5```\"\n```").toList = none
  ∧ parseModelReply ("\"```5```\"").toList = some (.num ("5").toList)
  ∧ parseModelReply ("```json\n\"```5```\"\n```").toList
      ≠ parseModelReply ("\"```5```\"").toList := by
  refine ⟨rfl, rfl, ?_⟩
  intro h
  exact Option.noConfusion h

/-- Claim C8 (amended): the round-trip holds for every payload free of
backtick characters (and already whitespace-stripped, as every JSON
serialization is): wrapping it in a fenced code block, with or without
the json tag, parses to exactly what the raw payload parses to. -/
theorem fenced_roundtrip_amended (s : List Char) (hb : bt ∉ s) (hs : pystrip s = s) :
    parseModelReply (wrapFence true s) = jsonLoads s
  ∧ parseModelReply (wrapFence false s) = jsonLoads s
  ∧ parseModelReply s = jsonLoads s := by
  have hX := pystrip_sandwich s hs
  refine ⟨?_, ?_, ?_⟩
  · unfold parseModelReply
    rw [stripCodeFence_wrap_tag s hb, hX]
  · unfold parseModelReply
    rw [stripCodeFence_wrap_untag s hb, hX]
  · unfold parseModelReply
    rw [stripCodeFence_nofence s hb]

/-- Witness for C8 (amended), instantiated at the record of the claim:
the reply with the json-tagged fence around the serialized record parses
to the same record as the raw serialization. -/
theorem fenced_roundtrip_amended_witness :
    parseModelReply ("```json\n\x7b\"a\":1\x7d\n```").toList
      = jsonLoads ("\x7b\"a\":1\x7d").toList
  ∧ parseModelReply ("```\n\x7b\"a\":1\x7d\n```").toList
      = jsonLoads ("\x7b\"a\":1\x7d").toList
  ∧ jsonLoads ("\x7b\"a\":1\x7d").toList
      = some (.obj [(("a").toList, .num ("1").toList)]) := by
  have h := fenced_roundtrip_amended ("\x7b\"a\":1\x7d").toList (by decide) (by decide)
  have e1 : ("```json\n\x7b\"a\":1\x7d\n```").toList
      = wrapFence true ("\x7b\"a\":1\x7d").toList := by decide
  have e2 : ("```\n\x7b\"a\":1\x7d\n```").toList
      = wrapFence false ("\x7b\"a\":1\x7d").toList := by decide
  refine ⟨?_, ?_, rfl⟩
  · rw [e1]
    exact h.1
  · rw [e2]
    exact h.2.1

/-- Claim C9: an absent extraction result propagates as no usable text:
validate on the absence marker returns the no-readable-text record with
is_rulebook = false for every model outcome, and the corpus-assembly loop
skips that document entirely, contributing nothing (not even a header or
an empty segment). -/
theorem absent_text_propagates (fileName modelName docName : List Char)
    (modelReply : Option (List Char))
    (pre post : List (List Char × Option (List Char))) :
    RulebookValidator.validate none fileName modelName modelReply = noReadableDict
  ∧ buildCorpus (pre ++ (docName, none) :: post) = buildCorpus (pre ++ post) := by
  constructor
  · rfl
  · unfold buildCorpus
    rw [List.foldl_append, List.foldl_append, List.foldl_cons]
    rfl

/-- Claim C10, counterexample: the claim says a pair is appended exactly
when answer_question returned a non-null answer; a returned empty string
is non-null, yet the log update leaves the log unchanged. -/
theorem qa_log_nonnull_empty_counterexample :
    RuleMasterAssistant.answer_question ("q").toList [] [] [] (some []) = some []
  ∧ some ([] : List Char) ≠ none
  ∧ updateQaLog [] ("q").toList (some []) = [] :=
  ⟨rfl, by simp, rfl⟩

/-- Claim C10 (amended): a (question, answer) pair is appended exactly
when the answer is non-null and nonempty; on a null or empty answer the
log is unchanged, and an update never disturbs the existing prefix, so
the log holds exactly the completed nonempty exchanges in order. -/
theorem qa_log_update_amended (log : List (List Char × List Char)) (q a : List Char) :
    updateQaLog log q none = log
  ∧ updateQaLog log q (some a) = (if a = [] then log else log ++ [(q, a)])
  ∧ log.isPrefixOf (updateQaLog log q (some a)) = true
  ∧ log.isPrefixOf (updateQaLog log q none) = true := by
  refine ⟨rfl, rfl, ?_, ?_⟩
  · unfold updateQaLog
    by_cases h : a = []
    · simp [h, isPrefixOf_refl]
    · simp [h, isPrefixOf_append_self]
  · exact isPrefixOf_refl log

end TabletopOracle
